import Mathlib

/-!
A shallow embedding of the Ceres6 cheat-sheet search core
(Ceres6SearchApp.py): the text normalizer (normalize / tokenize /
phrase_list), the row scorer (score_row with its phrase-hit, token-overlap
and entity-hint components), and the module-level ranking (stable
descending sort by score followed by the Python slice scored[:top_k]).

Strings are modelled as lists of characters; Python's str.lower, str.strip,
the regex character-class substitution, whitespace collapsing, str.split and
substring containment are given explicit executable definitions below.
-/

namespace Ceres6

/-- Strings of the Python source are modelled as lists of characters. -/
abbrev Str := List Char

/-- Model of the regex class \s (and of the characters stripped by
str.strip): space, tab, newline, carriage return, vertical tab, form feed. -/
def isWs (c : Char) : Bool :=
  c = ' ' || c = '\t' || c = '\n' || c = '\r' ||
  c = Char.ofNat 11 || c = Char.ofNat 12

/-- Model of str.lower on one character (ASCII case fold, the fragment that
matters after the character-class substitution keeps only ASCII). -/
def pyLower (c : Char) : Char :=
  if 'A' ≤ c && c ≤ 'Z' then Char.ofNat (c.toNat + 32) else c

/-- Lowercase ASCII letter. -/
def isLowerAlpha (c : Char) : Bool := 'a' ≤ c && c ≤ 'z'

/-- ASCII digit. -/
def isDigitCh (c : Char) : Bool := '0' ≤ c && c ≤ '9'

/-- The character class of the first re.sub in normalize: lowercase ASCII
letters, digits, whitespace, comma, slash, hyphen. -/
def allowedCls (c : Char) : Bool :=
  isLowerAlpha c || isDigitCh c || isWs c || c = ',' || c = '/' || c = '-'

/-- Model of str.strip: drop whitespace from both ends. -/
def stripWs (l : Str) : Str :=
  ((l.dropWhile isWs).reverse.dropWhile isWs).reverse

/-- Worker for the re.sub(\s+, " ") collapse: the flag records whether the
previous character belonged to a whitespace run already emitted as " ". -/
def collapseAux : Bool → Str → Str
  | _, [] => []
  | prev, c :: cs =>
    if isWs c then
      if prev then collapseAux true cs else ' ' :: collapseAux true cs
    else c :: collapseAux false cs

/-- Model of re.sub(r"\s+", " ", text): every maximal whitespace run becomes
one space. -/
def collapseWs (l : Str) : Str := collapseAux false l

/-- The first re.sub of normalize, per character: anything outside the
allowed class becomes a space. -/
def clsSub (c : Char) : Char := if allowedCls c then c else ' '

/-- The two str.replace calls of normalize, per character: slash and hyphen
become spaces. -/
def slashSub (c : Char) : Char := if c = '/' || c = '-' then ' ' else c

/-- Model of normalize (Ceres6SearchApp.py lines 35-40): lower + strip, the
character-class substitution to spaces, slash and hyphen to spaces, collapse
whitespace runs, strip. -/
def normalize (s : Str) : Str :=
  stripWs (collapseWs (((stripWs (s.map pyLower)).map clsSub).map slashSub))

/-- Worker for str.split() (split on whitespace, no empty words). -/
def splitWsAux : Str → Str → List Str
  | [], acc => if acc.isEmpty then [] else [acc.reverse]
  | c :: cs, acc =>
    if isWs c then
      if acc.isEmpty then splitWsAux cs [] else acc.reverse :: splitWsAux cs []
    else splitWsAux cs (c :: acc)

/-- Model of str.split() with no separator argument. -/
def splitWs (l : Str) : List Str := splitWsAux l []

/-- STOPWORDS of Ceres6SearchApp.py lines 13-16. -/
def STOPWORDS : List Str :=
  [ "where".toList, "can".toList, "i".toList, "find".toList, "the".toList,
    "a".toList, "an".toList, "of".toList, "to".toList, "for".toList,
    "in".toList, "on".toList, "and".toList, "or".toList,
    "is".toList, "are".toList, "do".toList, "does".toList, "what".toList,
    "whats".toList, "please".toList, "me".toList, "show".toList,
    "tell".toList ]

/-- Model of tokenize (lines 42-44): normalize, split on whitespace, keep
words of length at least 3 that are not stopwords; the Python set is
modelled as a deduplicated list. -/
def tokenize (s : Str) : List Str :=
  ((splitWs (normalize s)).filter
    (fun w => decide (3 ≤ w.length) && !(decide (w ∈ STOPWORDS)))).dedup

/-- Worker for str.split(","): split on commas, keeping empty segments. -/
def splitCommaAux : Str → Str → List Str
  | [], acc => [acc.reverse]
  | c :: cs, acc =>
    if c = ',' then acc.reverse :: splitCommaAux cs []
    else splitCommaAux cs (c :: acc)

/-- Model of str.split(","). -/
def splitComma (l : Str) : List Str := splitCommaAux l []

/-- Model of phrase_list (lines 46-53): split the synonyms field on commas,
normalize each segment, keep segments of length at least 3. -/
def phrase_list (synonyms : Str) : List Str :=
  ((splitComma synonyms).map normalize).filter (fun p => decide (3 ≤ p.length))

/-- needle is a prefix of hay (character-wise). -/
def startsWith : Str → Str → Bool
  | [], _ => true
  | _ :: _, [] => false
  | a :: as, b :: bs => a = b && startsWith as bs

/-- Model of the Python substring test (w in s): needle occurs contiguously
inside hay. -/
def isSubstr (needle : Str) : Str → Bool
  | [] => startsWith needle []
  | c :: rest => startsWith needle (c :: rest) || isSubstr needle rest

/-- ENTITY_HINTS of lines 18-24, as an ordered list of (tag, triggers)
pairs: Python dicts iterate in insertion order, which is semantically
significant here because the scoring loop breaks at the first match. -/
def ENTITY_HINTS : List (Str × List Str) :=
  [ ("agency".toList, ["agency".toList, "agencies".toList]),
    ("donors".toList, ["donor".toList, "donors".toList]),
    ("vendors".toList, ["vendor".toList, "vendors".toList,
                        "supplier".toList, "suppliers".toList]),
    ("items".toList, ["item".toList, "items".toList,
                      "product".toList, "sku".toList]),
    ("ledger".toList, ["gl".toList, "g/l".toList, "ledger".toList,
                       "general ledger".toList, "journal".toList]) ]

/-- The first entity-hint group (in ENTITY_HINTS order) one of whose
triggers occurs in the normalized query; none when no trigger matches.
This is the for/break loop of lines 82-89. -/
def firstHintGroup (q_norm : Str) : Option Str :=
  (ENTITY_HINTS.find? (fun p => p.2.any (fun w => isSubstr w q_norm))).map
    Prod.fst

/-- A dataset row: the string fields the app reads from the CSV.  Fields
absent from a row reach the scorer as the empty string (row.get default). -/
structure Row where
  common : Str
  keyword : Str
  report : Str
  fullKey : Str
  entity : Str
  canonical : Str
  synonyms : Str
deriving DecidableEq

/-- Update the value stored under key k of the explanation dict (the key is
always present: the dict is created with all three keys). -/
def setWhy (k : Str) (v : Int) (m : List (Str × Int)) : List (Str × Int) :=
  m.map (fun p => if p.1 = k then (p.1, v) else p)

/-- The phrase-hit component of score_row (lines 66-72): the running max of
8 + len(phr) / 10 over the phrases of phrase_list(synonyms) that are
non-empty substrings of the normalized query. -/
def bestPhrase (q_norm synonyms : Str) : Nat :=
  (phrase_list synonyms).foldl
    (fun b phr =>
      if !phr.isEmpty && isSubstr phr q_norm then max b (8 + phr.length / 10)
      else b) 0

/-- The token-overlap component of score_row (lines 74-79): twice the size
of the intersection of the query token set with the union of the tokens of
common, keyword and report, capped at 6. -/
def tokPts (q_tokens : List Str) (common keyword report : Str) : Nat :=
  let row_tokens := (tokenize common ++ tokenize keyword ++ tokenize report).dedup
  let overlap := (q_tokens.filter (fun t => decide (t ∈ row_tokens))).length
  min 6 (overlap * 2)

/-- The explanation dict as initialized on line 64. -/
def whyInit : List (Str × Int) :=
  [("syn_phrase_hit".toList, 0), ("token_overlap".toList, 0),
   ("entity_bonus".toList, 0)]

/-- Model of score_row (lines 56-91).  Takes the normalized query and its
token set, returns the integer score and the explanation dict (an
association list with the keys syn_phrase_hit, token_overlap,
entity_bonus). -/
def score_row (q_norm : Str) (q_tokens : List Str) (row : Row) :
    Int × List (Str × Int) :=
  let common := normalize row.common
  let keyword := normalize row.keyword
  let report := normalize row.report
  let synonyms := row.synonyms
  let entity := normalize row.entity
  let best_phrase := bestPhrase q_norm synonyms
  let score1 : Int := (best_phrase : Int)
  let why1 := setWhy "syn_phrase_hit".toList (best_phrase : Int) whyInit
  let tok_pts := tokPts q_tokens common keyword report
  let score2 := score1 + (tok_pts : Int)
  let why2 := setWhy "token_overlap".toList (tok_pts : Int) why1
  match ENTITY_HINTS.find? (fun p => p.2.any (fun w => isSubstr w q_norm)) with
  | none => (score2, why2)
  | some p =>
    if p.1 = entity then (score2 + 4, setWhy "entity_bonus".toList 4 why2)
    else (score2 - 1, why2)

/-- The score accumulated before the entity-hint step: phrase hit plus
token overlap. -/
def baseScore (q_norm : Str) (q_tokens : List Str) (row : Row) : Int :=
  (bestPhrase q_norm row.synonyms : Int) +
  (tokPts q_tokens (normalize row.common) (normalize row.keyword)
    (normalize row.report) : Int)

/-- The explanation dict after the phrase and token steps. -/
def whyBase (q_norm : Str) (q_tokens : List Str) (row : Row) : List (Str × Int) :=
  setWhy "token_overlap".toList
    (tokPts q_tokens (normalize row.common) (normalize row.keyword)
      (normalize row.report) : Int)
    (setWhy "syn_phrase_hit".toList (bestPhrase q_norm row.synonyms : Int) whyInit)

/-- Read one sub-score out of the explanation dict. -/
def lookupWhy (k : Str) (m : List (Str × Int)) : Int := (m.lookup k).getD 0

/-- The implicit entity penalty fired: some entity-hint group matched the
query but its tag differs from the row's normalized entity. -/
def entMismatch (q_norm : Str) (row : Row) : Bool :=
  match firstHintGroup q_norm with
  | none => false
  | some g => !(decide (g = normalize row.entity))

/-- One entry of the scored list: (score, explanation, row), the tuple the
app appends per row (line 121). -/
abbrev Scored := Int × List (Str × Int) × Row

/-- The sort relation of scored.sort(key=lambda x: x[0], reverse=True):
descending by score.  A stable sort with this relation places an element
after every earlier element of greater-or-equal score. -/
def rDesc (a b : Scored) : Prop := b.1 ≤ a.1

instance : DecidableRel rDesc := fun a b => Int.decLe b.1 a.1

instance : IsTotal Scored rDesc := ⟨fun a b => le_total b.1 a.1⟩

instance : IsTrans Scored rDesc := ⟨fun _ _ _ h1 h2 => le_trans h2 h1⟩

/-- One entry of the scored list, as appended on line 121. -/
def scoreEntry (q : Str) (row : Row) : Scored :=
  ((score_row (normalize q) (tokenize q) row).1,
   (score_row (normalize q) (tokenize q) row).2, row)

/-- The scored list before sorting (lines 118-121): one (score, why, row)
triple per dataset row, in dataset order. -/
def scoredList (q : Str) (ds : List Row) : List Scored :=
  ds.map (scoreEntry q)

/-- The sorted scored list (line 123): Python's sort is stable, and with
reverse=True ties keep input order; insertionSort with rDesc realizes
exactly that stable descending order. -/
def rankAll (q : Str) (ds : List Row) : List Scored :=
  List.insertionSort rDesc (scoredList q ds)

/-- Model of the Python slice l[:k] with an arbitrary integer bound: a
non-negative k takes the first k elements, a negative k drops the last |k|
(stop = max(0, len + k)). -/
def pySlice (l : List α) (k : Int) : List α :=
  if 0 ≤ k then l.take k.toNat else l.take (l.length - (-k).toNat)

/-- Model of the module-level ranking (lines 114-124): score every row,
stable-sort descending by score, slice to the first top_k.  No validation
of top_k happens anywhere on this path (the UI slider constrains it to
1..10 before it reaches this code). -/
def rank (q : Str) (ds : List Row) (top_k : Int) : List Scored :=
  pySlice (rankAll q ds) top_k

/-!
### Helper lemmas: characters

Characters are compared through their code points; the bridge lemmas below
turn the Char-level tests of the definitions into Nat facts that omega can
settle.
-/

/-- The characters normalize can output: lowercase ASCII letters, digits,
the space, the comma. -/
def isOut (c : Char) : Bool :=
  isLowerAlpha c || isDigitCh c || c = ' ' || c = ','

theorem char_eq_iff_toNat {a b : Char} : a = b ↔ a.toNat = b.toNat :=
  ⟨fun h => h ▸ rfl, fun h => Char.eq_of_val_eq (UInt32.toNat.inj h)⟩

theorem char_le_iff_toNat {a b : Char} : a ≤ b ↔ a.toNat ≤ b.toNat := Iff.rfl

theorem toNat_charOfNat {n : Nat} (h : n < 55296) : (Char.ofNat n).toNat = n := by
  have hv : n.isValidChar := Or.inl h
  simp [Char.ofNat, hv, Char.toNat, Char.ofNatAux, UInt32.toNat, BitVec.toNat_ofNat]

theorem toNat_sp : (' ' : Char).toNat = 32 := rfl
theorem toNat_tab : ('\t' : Char).toNat = 9 := rfl
theorem toNat_lf : ('\n' : Char).toNat = 10 := rfl
theorem toNat_cr : ('\r' : Char).toNat = 13 := rfl
theorem toNat_vt : (Char.ofNat 11).toNat = 11 := rfl
theorem toNat_ff : (Char.ofNat 12).toNat = 12 := rfl
theorem toNat_comma : (',' : Char).toNat = 44 := rfl
theorem toNat_slash : ('/' : Char).toNat = 47 := rfl
theorem toNat_hyphen : ('-' : Char).toNat = 45 := rfl
theorem toNat_la : ('a' : Char).toNat = 97 := rfl
theorem toNat_lz : ('z' : Char).toNat = 122 := rfl
theorem toNat_d0 : ('0' : Char).toNat = 48 := rfl
theorem toNat_d9 : ('9' : Char).toNat = 57 := rfl
theorem toNat_uA : ('A' : Char).toNat = 65 := rfl
theorem toNat_uZ : ('Z' : Char).toNat = 90 := rfl

/-- Unfold the whitespace test to code points. -/
theorem isWs_iff {c : Char} :
    isWs c = true ↔
      c.toNat = 32 ∨ c.toNat = 9 ∨ c.toNat = 10 ∨ c.toNat = 13 ∨
      c.toNat = 11 ∨ c.toNat = 12 := by
  simp only [isWs, Bool.or_eq_true, decide_eq_true_eq, char_eq_iff_toNat,
    toNat_sp, toNat_tab, toNat_lf, toNat_cr, toNat_vt, toNat_ff]
  omega

/-- Unfold the output-class test to code points. -/
theorem isOut_iff {c : Char} :
    isOut c = true ↔
      (97 ≤ c.toNat ∧ c.toNat ≤ 122) ∨ (48 ≤ c.toNat ∧ c.toNat ≤ 57) ∨
      c.toNat = 32 ∨ c.toNat = 44 := by
  simp only [isOut, isLowerAlpha, isDigitCh, Bool.or_eq_true, Bool.and_eq_true,
    decide_eq_true_eq, char_eq_iff_toNat, char_le_iff_toNat,
    toNat_sp, toNat_comma, toNat_la, toNat_lz, toNat_d0, toNat_d9]
  omega

/-- Unfold the character-class test to code points. -/
theorem allowedCls_iff {c : Char} :
    allowedCls c = true ↔
      (97 ≤ c.toNat ∧ c.toNat ≤ 122) ∨ (48 ≤ c.toNat ∧ c.toNat ≤ 57) ∨
      (c.toNat = 32 ∨ c.toNat = 9 ∨ c.toNat = 10 ∨ c.toNat = 13 ∨
        c.toNat = 11 ∨ c.toNat = 12) ∨
      c.toNat = 44 ∨ c.toNat = 47 ∨ c.toNat = 45 := by
  simp only [allowedCls, isLowerAlpha, isDigitCh, Bool.or_eq_true, Bool.and_eq_true,
    decide_eq_true_eq, char_eq_iff_toNat, char_le_iff_toNat, isWs_iff,
    toNat_comma, toNat_slash, toNat_hyphen, toNat_la, toNat_lz, toNat_d0, toNat_d9]
  omega

/-- An output-class character is left unchanged by the case fold. -/
theorem pyLower_eq_self {c : Char} (h : isOut c = true) : pyLower c = c := by
  rw [isOut_iff] at h
  have hc : ¬(('A' ≤ c && c ≤ 'Z') = true) := by
    simp only [Bool.and_eq_true, decide_eq_true_eq, char_le_iff_toNat,
      toNat_uA, toNat_uZ, not_and]
    omega
  unfold pyLower
  rw [if_neg hc]

/-- An output-class character survives the character-class substitution. -/
theorem clsSub_eq_self {c : Char} (h : isOut c = true) : clsSub c = c := by
  unfold clsSub
  rw [if_pos]
  rw [isOut_iff] at h
  rw [allowedCls_iff]
  omega

/-- An output-class character is neither a slash nor a hyphen. -/
theorem slashSub_eq_self {c : Char} (h : isOut c = true) : slashSub c = c := by
  rw [isOut_iff] at h
  unfold slashSub
  rw [if_neg]
  simp only [Bool.or_eq_true, decide_eq_true_eq, char_eq_iff_toNat,
    toNat_slash, toNat_hyphen, not_or]
  omega

/-- The only whitespace character in the output class is the space. -/
theorem isOut_ws_eq_space {c : Char} (h : isOut c = true) (hw : isWs c = true) :
    c = ' ' := by
  rw [isOut_iff] at h
  rw [isWs_iff] at hw
  rw [char_eq_iff_toNat, toNat_sp]
  omega

/-- The space is in the output class. -/
theorem isOut_space : isOut ' ' = true := by decide

/-- The characters produced by the two substitution maps of normalize are in
the output class as soon as they are not whitespace. -/
theorem subst_out {a : Char} (h : isWs (slashSub (clsSub a)) = false) :
    isOut (slashSub (clsSub a)) = true := by
  by_cases ha : allowedCls a = true
  · rw [clsSub, if_pos ha] at h ⊢
    by_cases hs : (a = '/' || a = '-') = true
    · rw [slashSub, if_pos hs] at h
      rw [show isWs ' ' = true from rfl] at h
      cases h
    · rw [slashSub, if_neg hs] at h ⊢
      rw [allowedCls_iff] at ha
      have hw : ¬(isWs a = true) := by rw [h]; simp
      rw [isWs_iff] at hw
      simp only [Bool.or_eq_true, decide_eq_true_eq, char_eq_iff_toNat,
        toNat_slash, toNat_hyphen, not_or] at hs
      rw [isOut_iff]
      omega
  · rw [clsSub, if_neg ha] at h ⊢
    rw [show slashSub ' ' = ' ' from rfl] at h
    rw [show isWs ' ' = true from rfl] at h
    cases h

/-!
### Helper lemmas: whitespace collapsing and stripping
-/

/-- Adjacent characters are never both whitespace. -/
def noTwoWs (a b : Char) : Prop := isWs a = false ∨ isWs b = false

theorem mem_collapseAux {c : Char} : ∀ (l : Str) (b : Bool),
    c ∈ collapseAux b l → c = ' ' ∨ (c ∈ l ∧ isWs c = false) := by
  intro l
  induction l with
  | nil => intro b h; cases h
  | cons a cs ih =>
    intro b h
    unfold collapseAux at h
    by_cases ha : isWs a = true
    · rw [if_pos ha] at h
      cases b with
      | true =>
        rw [if_pos rfl] at h
        rcases ih true h with h1 | h2
        · exact Or.inl h1
        · exact Or.inr ⟨List.mem_cons_of_mem _ h2.1, h2.2⟩
      | false =>
        rw [if_neg (by decide)] at h
        rcases List.mem_cons.mp h with h1 | h1
        · exact Or.inl h1
        · rcases ih true h1 with h2 | h3
          · exact Or.inl h2
          · exact Or.inr ⟨List.mem_cons_of_mem _ h3.1, h3.2⟩
    · rw [if_neg ha] at h
      rcases List.mem_cons.mp h with h1 | h1
      · subst h1; exact Or.inr ⟨List.mem_cons_self _ _, by simpa using ha⟩
      · rcases ih false h1 with h2 | h3
        · exact Or.inl h2
        · exact Or.inr ⟨List.mem_cons_of_mem _ h3.1, h3.2⟩

theorem head_collapseAux_true : ∀ (l : Str) {x : Char},
    (collapseAux true l).head? = some x → isWs x = false := by
  intro l
  induction l with
  | nil => intro x h; cases h
  | cons a cs ih =>
    intro x h
    unfold collapseAux at h
    by_cases ha : isWs a = true
    · rw [if_pos ha, if_pos rfl] at h
      exact ih h
    · rw [if_neg ha] at h
      simp only [List.head?_cons, Option.some.injEq] at h
      subst h; simpa using ha

theorem chain_collapseAux : ∀ (l : Str) (b : Bool),
    List.Chain' noTwoWs (collapseAux b l) := by
  intro l
  induction l with
  | nil => intro b; exact List.chain'_nil
  | cons a cs ih =>
    intro b
    unfold collapseAux
    by_cases ha : isWs a = true
    · rw [if_pos ha]
      cases b with
      | true => rw [if_pos rfl]; exact ih true
      | false =>
        rw [if_neg (by decide)]
        rw [List.chain'_cons']
        refine ⟨?_, ih true⟩
        intro y hy
        exact Or.inr (head_collapseAux_true cs hy)
    · rw [if_neg ha]
      rw [List.chain'_cons']
      refine ⟨?_, ih false⟩
      intro y _
      exact Or.inl (by simpa using ha)

theorem chain_dropWhile {R : Char → Char → Prop} {p : Char → Bool} :
    ∀ {l : Str}, List.Chain' R l → List.Chain' R (l.dropWhile p) := by
  intro l
  induction l with
  | nil => intro h; exact h
  | cons a cs ih =>
    intro h
    rw [List.dropWhile_cons]
    by_cases hp : p a = true
    · rw [if_pos hp]
      exact ih h.tail
    · rw [if_neg hp]
      exact h

theorem chain_reverse_noTwoWs {l : Str} (h : List.Chain' noTwoWs l) :
    List.Chain' noTwoWs l.reverse := by
  rw [List.chain'_reverse]
  exact h.imp (fun a b hab => hab.symm)

theorem chain_stripWs {l : Str} (h : List.Chain' noTwoWs l) :
    List.Chain' noTwoWs (stripWs l) :=
  chain_reverse_noTwoWs (chain_dropWhile (chain_reverse_noTwoWs (chain_dropWhile h)))

theorem head_dropWhile {p : Char → Bool} : ∀ {l : Str} {x : Char},
    (l.dropWhile p).head? = some x → p x = false := by
  intro l
  induction l with
  | nil => intro x h; cases h
  | cons a cs ih =>
    intro x h
    rw [List.dropWhile_cons] at h
    by_cases hp : p a = true
    · rw [if_pos hp] at h
      exact ih h
    · rw [if_neg hp] at h
      simp only [List.head?_cons, Option.some.injEq] at h
      subst h; simpa using hp

theorem getLast_dropWhile {p : Char → Bool} {l : Str} {x : Char}
    (h : (l.dropWhile p).getLast? = some x) : l.getLast? = some x := by
  have hne : l.dropWhile p ≠ [] := by
    intro e
    rw [e] at h
    cases h
  conv_lhs => rw [← List.takeWhile_append_dropWhile p l]
  rw [List.getLast?_append_of_ne_nil _ hne]
  exact h

theorem head_stripWs {l : Str} {x : Char} (h : (stripWs l).head? = some x) :
    isWs x = false := by
  unfold stripWs at h
  rw [List.head?_reverse] at h
  have h2 := getLast_dropWhile h
  rw [List.getLast?_reverse] at h2
  exact head_dropWhile h2

theorem last_stripWs {l : Str} {x : Char} (h : (stripWs l).getLast? = some x) :
    isWs x = false := by
  unfold stripWs at h
  rw [List.getLast?_reverse] at h
  exact head_dropWhile h

theorem mem_stripWs {l : Str} {c : Char} (h : c ∈ stripWs l) : c ∈ l := by
  unfold stripWs at h
  rw [List.mem_reverse] at h
  have h1 := (List.dropWhile_sublist _).mem h
  rw [List.mem_reverse] at h1
  exact (List.dropWhile_sublist _).mem h1

theorem map_eq_self_of {f : Char → Char} : ∀ {l : Str},
    (∀ c ∈ l, f c = c) → l.map f = l
  | [], _ => rfl
  | c :: cs, h => by
    rw [List.map_cons, h c (List.mem_cons_self c cs),
      map_eq_self_of (fun x hx => h x (List.mem_cons_of_mem c hx))]

theorem dropWhile_eq_self {p : Char → Bool} {l : Str}
    (h : ∀ x, l.head? = some x → p x = false) : l.dropWhile p = l := by
  cases l with
  | nil => rfl
  | cons a cs =>
    have ha := h a rfl
    rw [List.dropWhile_cons, ha]
    simp

theorem stripWs_eq_self {l : Str}
    (hh : ∀ x, l.head? = some x → isWs x = false)
    (hl : ∀ x, l.getLast? = some x → isWs x = false) :
    stripWs l = l := by
  unfold stripWs
  have h2 : ∀ x, l.reverse.head? = some x → isWs x = false := by
    intro x hx
    rw [List.head?_reverse] at hx
    exact hl x hx
  rw [dropWhile_eq_self hh, dropWhile_eq_self h2, List.reverse_reverse]

theorem collapseAux_eq_self : ∀ (l : Str) (b : Bool),
    List.Chain' noTwoWs l → (∀ c ∈ l, isWs c = true → c = ' ') →
    (b = true → ∀ x, l.head? = some x → isWs x = false) →
    collapseAux b l = l := by
  intro l
  induction l with
  | nil => intro b _ _ _; rfl
  | cons a cs ih =>
    intro b hch hws hb
    unfold collapseAux
    by_cases ha : isWs a = true
    · rw [if_pos ha]
      cases b with
      | true => exact absurd (hb rfl a rfl) (by simp [ha])
      | false =>
        rw [if_neg (by decide)]
        rw [hws a (List.mem_cons_self a cs) ha]
        congr 1
        apply ih true hch.tail
          (fun c hc hw => hws c (List.mem_cons_of_mem a hc) hw)
        intro _ x hx
        rcases (List.chain'_cons'.mp hch).1 x hx with h1 | h2
        · exact absurd ha (by simp [h1])
        · exact h2
    · rw [if_neg ha]
      congr 1
      apply ih false hch.tail
        (fun c hc hw => hws c (List.mem_cons_of_mem a hc) hw)
      intro hF
      exact absurd hF (by decide)

/-!
### Helper lemmas: invariants of normalize
-/

theorem mem_normalize_isOut {s : Str} {c : Char} (h : c ∈ normalize s) :
    isOut c = true := by
  unfold normalize collapseWs at h
  have h1 := mem_stripWs h
  rcases mem_collapseAux _ false h1 with h2 | ⟨h3, h4⟩
  · subst h2
    exact isOut_space
  · rcases List.mem_map.mp h3 with ⟨a2, ha2, hae⟩
    rcases List.mem_map.mp ha2 with ⟨a1, _, hbe⟩
    subst hae
    subst hbe
    exact subst_out h4

theorem chain_normalize (s : Str) : List.Chain' noTwoWs (normalize s) := by
  unfold normalize collapseWs
  exact chain_stripWs (chain_collapseAux _ false)

theorem head_normalize {s : Str} {x : Char} (h : (normalize s).head? = some x) :
    isWs x = false := by
  unfold normalize at h
  exact head_stripWs h

theorem last_normalize {s : Str} {x : Char} (h : (normalize s).getLast? = some x) :
    isWs x = false := by
  unfold normalize at h
  exact last_stripWs h

theorem normalize_eq_self {l : Str}
    (hout : ∀ c ∈ l, isOut c = true)
    (hch : List.Chain' noTwoWs l)
    (hh : ∀ x, l.head? = some x → isWs x = false)
    (hl : ∀ x, l.getLast? = some x → isWs x = false) :
    normalize l = l := by
  unfold normalize collapseWs
  rw [map_eq_self_of (fun c hc => pyLower_eq_self (hout c hc))]
  rw [stripWs_eq_self hh hl]
  rw [map_eq_self_of (fun c hc => clsSub_eq_self (hout c hc))]
  rw [map_eq_self_of (fun c hc => slashSub_eq_self (hout c hc))]
  rw [collapseAux_eq_self l false hch
    (fun c hc hw => isOut_ws_eq_space (hout c hc) hw)
    (fun hF => absurd hF (by decide))]
  exact stripWs_eq_self hh hl

theorem normalize_idem (s : Str) : normalize (normalize s) = normalize s :=
  normalize_eq_self (fun _ hc => mem_normalize_isOut hc) (chain_normalize s)
    (fun _ hx => head_normalize hx) (fun _ hx => last_normalize hx)

/-!
### Helper lemmas: the phrase-hit fold is a maximum
-/

theorem bestPhrase_fold_le (q_norm : Str) : ∀ (l : List Str) (b : Nat),
    b ≤ l.foldl (fun b phr =>
      if !phr.isEmpty && isSubstr phr q_norm then max b (8 + phr.length / 10)
      else b) b := by
  intro l
  induction l with
  | nil => intro b; exact le_refl b
  | cons x t ih =>
    intro b
    rw [List.foldl_cons]
    by_cases hx : (!x.isEmpty && isSubstr x q_norm) = true
    · rw [if_pos hx]
      exact le_trans (le_max_left _ _) (ih _)
    · rw [if_neg hx]
      exact ih b

theorem bestPhrase_fold_ge (q_norm : Str) : ∀ (l : List Str) (b : Nat) (x : Str),
    x ∈ l → (!x.isEmpty && isSubstr x q_norm) = true →
    8 + x.length / 10 ≤ l.foldl (fun b phr =>
      if !phr.isEmpty && isSubstr phr q_norm then max b (8 + phr.length / 10)
      else b) b := by
  intro l
  induction l with
  | nil => intro b x hx; cases hx
  | cons y t ih =>
    intro b x hx hc
    rw [List.foldl_cons]
    rcases List.mem_cons.mp hx with h1 | h1
    · subst h1
      rw [if_pos hc]
      exact le_trans (le_max_right _ _) (bestPhrase_fold_le q_norm t _)
    · by_cases hy : (!y.isEmpty && isSubstr y q_norm) = true
      · rw [if_pos hy]
        exact ih _ x h1 hc
      · rw [if_neg hy]
        exact ih b x h1 hc

theorem bestPhrase_fold_cases (q_norm : Str) : ∀ (l : List Str) (b : Nat),
    l.foldl (fun b phr =>
      if !phr.isEmpty && isSubstr phr q_norm then max b (8 + phr.length / 10)
      else b) b = b ∨
    ∃ x ∈ l, (!x.isEmpty && isSubstr x q_norm) = true ∧
      l.foldl (fun b phr =>
        if !phr.isEmpty && isSubstr phr q_norm then max b (8 + phr.length / 10)
        else b) b = 8 + x.length / 10 := by
  intro l
  induction l with
  | nil => intro b; exact Or.inl rfl
  | cons y t ih =>
    intro b
    rw [List.foldl_cons]
    by_cases hy : (!y.isEmpty && isSubstr y q_norm) = true
    · rw [if_pos hy]
      rcases ih (max b (8 + y.length / 10)) with h1 | ⟨x, hx, hc, he⟩
      · rcases Nat.le_total b (8 + y.length / 10) with hm | hm
        · refine Or.inr ⟨y, List.mem_cons_self y t, hy, ?_⟩
          rw [h1]
          omega
        · exact Or.inl (by rw [h1]; omega)
      · exact Or.inr ⟨x, List.mem_cons_of_mem y hx, hc, he⟩
    · rw [if_neg hy]
      rcases ih b with h1 | ⟨x, hx, hc, he⟩
      · exact Or.inl h1
      · exact Or.inr ⟨x, List.mem_cons_of_mem y hx, hc, he⟩

theorem bestPhrase_fold_zero (q_norm : Str) : ∀ (l : List Str),
    (∀ x ∈ l, (!x.isEmpty && isSubstr x q_norm) = false) →
    l.foldl (fun b phr =>
      if !phr.isEmpty && isSubstr phr q_norm then max b (8 + phr.length / 10)
      else b) 0 = 0 := by
  intro l
  induction l with
  | nil => intro _; rfl
  | cons y t ih =>
    intro h
    rw [List.foldl_cons, h y (List.mem_cons_self y t)]
    simp only [if_false, Bool.false_eq_true]
    exact ih (fun x hx => h x (List.mem_cons_of_mem y hx))

/-!
### Helper lemmas: stability of the descending sort
-/

theorem filter_orderedInsert (s : Int) (a : Scored) : ∀ (l : List Scored),
    (List.orderedInsert rDesc a l).filter (fun x => decide (x.1 = s)) =
    ((a :: l).filter (fun x => decide (x.1 = s))) := by
  intro l
  induction l with
  | nil => rfl
  | cons b t ih =>
    rw [List.orderedInsert]
    by_cases hr : rDesc a b
    · rw [if_pos hr]
    · rw [if_neg hr]
      have hab : a.1 < b.1 := by
        simp only [rDesc, not_le] at hr
        exact hr
      by_cases ha : a.1 = s <;> by_cases hb : b.1 = s
      · omega
      · simp [List.filter_cons, ha, hb, ih]
      · simp [List.filter_cons, ha, hb, ih]
      · simp [List.filter_cons, ha, hb, ih]

theorem filter_insertionSort (s : Int) : ∀ (l : List Scored),
    (List.insertionSort rDesc l).filter (fun x => decide (x.1 = s)) =
    l.filter (fun x => decide (x.1 = s)) := by
  intro l
  induction l with
  | nil => rfl
  | cons a t ih =>
    rw [List.insertionSort, filter_orderedInsert, List.filter_cons,
      List.filter_cons, ih]

theorem length_rankAll (q : Str) (ds : List Row) :
    (rankAll q ds).length = ds.length := by
  unfold rankAll scoredList
  rw [List.length_insertionSort, List.length_map]

/-!
### Helper lemmas: substring occurrences
-/

theorem mem_of_startsWith : ∀ {n h : Str} {c : Char},
    startsWith n h = true → c ∈ n → c ∈ h := by
  intro n
  induction n with
  | nil => intro h c _ hc; cases hc
  | cons a as ih =>
    intro h c hs hc
    cases h with
    | nil => cases hs
    | cons b bs =>
      rw [startsWith, Bool.and_eq_true, decide_eq_true_eq] at hs
      rcases List.mem_cons.mp hc with h1 | h1
      · subst h1
        rw [hs.1]
        exact List.mem_cons_self b bs
      · exact List.mem_cons_of_mem b (ih hs.2 h1)

theorem mem_of_isSubstr {n : Str} {c : Char} : ∀ {h : Str},
    isSubstr n h = true → c ∈ n → c ∈ h := by
  intro h
  induction h with
  | nil =>
    intro hs hc
    exact mem_of_startsWith hs hc
  | cons b bs ih =>
    intro hs hc
    rw [isSubstr, Bool.or_eq_true] at hs
    rcases hs with h1 | h1
    · exact mem_of_startsWith h1 hc
    · exact List.mem_cons_of_mem b (ih h1 hc)

theorem slash_not_mem_normalize {q : Str} : '/' ∉ normalize q := by
  intro h
  have := mem_normalize_isOut h
  rw [isOut_iff, toNat_slash] at this
  omega

/-!
### Helper lemmas: the score_row pipeline in closed form
-/

theorem whyBase_eq (q_norm : Str) (q_tokens : List Str) (row : Row) :
    whyBase q_norm q_tokens row =
      [("syn_phrase_hit".toList, (bestPhrase q_norm row.synonyms : Int)),
       ("token_overlap".toList,
        (tokPts q_tokens (normalize row.common) (normalize row.keyword)
          (normalize row.report) : Int)),
       ("entity_bonus".toList, 0)] := rfl

theorem score_row_of_find_none (q_norm : Str) (q_tokens : List Str) (row : Row)
    (h : ENTITY_HINTS.find? (fun p => p.2.any (fun w => isSubstr w q_norm)) = none) :
    score_row q_norm q_tokens row =
      (baseScore q_norm q_tokens row, whyBase q_norm q_tokens row) := by
  unfold score_row
  rw [h]
  rfl

theorem score_row_of_find_some (q_norm : Str) (q_tokens : List Str) (row : Row)
    (pr : Str × List Str)
    (h : ENTITY_HINTS.find? (fun p => p.2.any (fun w => isSubstr w q_norm)) = some pr) :
    score_row q_norm q_tokens row =
      (if pr.1 = normalize row.entity then
        (baseScore q_norm q_tokens row + 4,
         setWhy "entity_bonus".toList 4 (whyBase q_norm q_tokens row))
       else (baseScore q_norm q_tokens row - 1, whyBase q_norm q_tokens row)) := by
  unfold score_row
  rw [h]
  rfl

theorem lookup_whyBase_bonus (q_norm : Str) (q_tokens : List Str) (row : Row) :
    lookupWhy "entity_bonus".toList (whyBase q_norm q_tokens row) = 0 := rfl

theorem lookup_whyBonus (q_norm : Str) (q_tokens : List Str) (row : Row) :
    lookupWhy "entity_bonus".toList
      (setWhy "entity_bonus".toList 4 (whyBase q_norm q_tokens row)) = 4 := rfl

theorem find_hint_cons_pos {q_norm tag : Str} {ws : List Str}
    {rest : List (Str × List Str)}
    (h : (ws.any fun w => isSubstr w q_norm) = true) :
    List.find? (fun p => p.2.any fun w => isSubstr w q_norm) ((tag, ws) :: rest) =
      some (tag, ws) :=
  List.find?_cons_of_pos _ h

theorem find_hint_cons_neg {q_norm tag : Str} {ws : List Str}
    {rest : List (Str × List Str)}
    (h : ¬(ws.any fun w => isSubstr w q_norm) = true) :
    List.find? (fun p => p.2.any fun w => isSubstr w q_norm) ((tag, ws) :: rest) =
      List.find? (fun p => p.2.any fun w => isSubstr w q_norm) rest :=
  List.find?_cons_of_neg _ h

/-!
### Sample rows used by concrete instances
-/

/-- A cheat-sheet row whose entity tag is agency and whose synonyms contain
the phrase delivery zone. -/
def rowAgency : Row :=
  ⟨"Agency Delivery Zone".toList, "DELZONE".toList, "AGNCY Master".toList,
   "AGNCY.DELZONE".toList, "Agency".toList, "delivery_zone".toList,
   "delivery zone, zone code".toList⟩

/-- A cheat-sheet row whose entity tag is donors. -/
def rowDonor : Row :=
  ⟨"Donor Name".toList, "DONORNAME".toList, "DONOR Master".toList,
   "DONOR.NAME".toList, "Donors".toList, "donor_name".toList,
   "donor name, contributor".toList⟩

/-!
### Claims
-/

/-- Claim C1, counterexample: ranking with a non-positive top_k does not
fail with any error; at top_k = 0 it silently returns the empty result, and
at top_k = -1 over a two-row dataset it silently returns one row (Python
slice semantics drop the last row).  This refutes the claim that the code
raises an InvalidArgument-class error for non-positive top_k. -/
theorem claim1_counterexample :
    rank "agency delivery zone".toList [rowAgency] 0 = [] ∧
    (rank "agency delivery zone".toList [rowAgency, rowDonor] (-1)).length = 1 := by
  constructor
  · rfl
  · rfl

/-- Claim C1, amended: for every dataset and query, invoking ranking with a
non-positive top_k does not raise; it silently truncates: top_k = 0 yields
the empty result, and a negative top_k yields the first
len(dataset) - |top_k| results (Python slice semantics).  The UI slider
constrains top_k to 1..10, so the core never validates it. -/
theorem claim1_nonpositive_topk_truncates (q : Str) (ds : List Row) (k : Int)
    (hk : k ≤ 0) :
    (k = 0 → rank q ds k = []) ∧
    (k < 0 → (rank q ds k).length = ds.length - (-k).toNat) := by
  constructor
  · intro h0
    subst h0
    unfold rank pySlice
    rw [if_pos (le_refl 0)]
    rfl
  · intro hneg
    unfold rank pySlice
    rw [if_neg (by omega)]
    rw [List.length_take, length_rankAll]
    omega

/-- Witness for the amended claim C1 at top_k = -1 over a two-row dataset. -/
theorem claim1_truncate_witness :
    (-1 : Int) ≤ 0 ∧
    (((-1 : Int) = 0 → rank "agency".toList [rowAgency, rowDonor] (-1) = []) ∧
     ((-1 : Int) < 0 → (rank "agency".toList [rowAgency, rowDonor] (-1)).length =
        [rowAgency, rowDonor].length - (-(-1 : Int)).toNat)) :=
  ⟨by decide, claim1_nonpositive_topk_truncates _ _ _ (by decide)⟩

/-- Claim C5: with a positive top_k, ranking returns at most top_k results,
never more than the dataset size; when top_k is at least the dataset size it
returns the whole sorted list (no padding, no error); over the empty dataset
it returns the empty sequence. -/
theorem claim5_topk_bounds (q : Str) (ds : List Row) (k : Int) (hk : 0 < k) :
    (rank q ds k).length ≤ k.toNat ∧
    (rank q ds k).length ≤ ds.length ∧
    ((ds.length : Int) ≤ k → rank q ds k = rankAll q ds) ∧
    rank q [] k = [] := by
  refine ⟨?_, ?_, ?_, ?_⟩
  · unfold rank pySlice
    rw [if_pos (le_of_lt hk), List.length_take]
    omega
  · unfold rank pySlice
    rw [if_pos (le_of_lt hk), List.length_take, length_rankAll]
    omega
  · intro h2
    unfold rank pySlice
    rw [if_pos (le_of_lt hk)]
    apply List.take_of_length_le
    rw [length_rankAll]
    omega
  · have hempty : rankAll q [] = [] := rfl
    unfold rank
    rw [hempty]
    unfold pySlice
    split
    · exact List.take_nil
    · exact List.take_nil

/-- Witness for claim C5 at top_k = 5 over a one-row dataset. -/
theorem claim5_witness :
    (0 : Int) < 5 ∧
    ((rank "agency".toList [rowAgency] 5).length ≤ (5 : Int).toNat ∧
     (rank "agency".toList [rowAgency] 5).length ≤ [rowAgency].length ∧
     (([rowAgency].length : Int) ≤ 5 →
        rank "agency".toList [rowAgency] 5 = rankAll "agency".toList [rowAgency]) ∧
     rank "agency".toList [] 5 = []) :=
  ⟨by decide, claim5_topk_bounds _ _ _ (by decide)⟩

/-- Claim C6: normalize is idempotent. -/
theorem claim6_normalize_idempotent (s : Str) :
    normalize (normalize s) = normalize s :=
  normalize_idem s

/-- Claim C7: every character of normalize(s) is a lowercase ASCII letter, a
digit, a space or a comma; no slash or hyphen survives; no two adjacent
characters are both spaces (no repeated whitespace); and the first and last
characters, when present, are not whitespace. -/
theorem claim7_normalize_charset (s : Str) :
    (∀ c ∈ normalize s, isOut c = true) ∧
    '/' ∉ normalize s ∧ '-' ∉ normalize s ∧
    List.Chain' (fun a b => ¬(a = ' ' ∧ b = ' ')) (normalize s) ∧
    (∀ x, (normalize s).head? = some x → isWs x = false) ∧
    (∀ x, (normalize s).getLast? = some x → isWs x = false) := by
  refine ⟨fun c hc => mem_normalize_isOut hc, slash_not_mem_normalize, ?_, ?_,
    fun x hx => head_normalize hx, fun x hx => last_normalize hx⟩
  · intro h
    have := mem_normalize_isOut h
    rw [isOut_iff, toNat_hyphen] at this
    omega
  · refine (chain_normalize s).imp ?_
    intro a b hab hand
    rcases hab with h1 | h1
    · rw [hand.1] at h1
      exact absurd h1 (by decide)
    · rw [hand.2] at h1
      exact absurd h1 (by decide)

/-- Witness for claim C7: its membership conjunct applied to a concrete
character of a concrete normalized string. -/
theorem claim7_witness : isOut 'b' = true :=
  (claim7_normalize_charset "A/B".toList).1 'b' (by decide)

/-- Claim C9: the ledger trigger g/l can never occur in a normalized query
(normalize turns every slash into a space), so the ledger entity-hint group
fires exactly when one of gl, ledger, general ledger, journal occurs; a
query mentioning the ledger only as g/l gets no entity adjustment at all. -/
theorem claim9_gl_trigger_dead (q : Str) :
    isSubstr "g/l".toList (normalize q) = false ∧
    ((["gl".toList, "g/l".toList, "ledger".toList, "general ledger".toList,
        "journal".toList].any (fun w => isSubstr w (normalize q))) =
      (["gl".toList, "ledger".toList, "general ledger".toList,
        "journal".toList].any (fun w => isSubstr w (normalize q)))) ∧
    firstHintGroup (normalize "g/l balance".toList) = none := by
  have hdead : isSubstr "g/l".toList (normalize q) = false := by
    rw [Bool.eq_false_iff]
    intro hcontra
    exact slash_not_mem_normalize (mem_of_isSubstr hcontra (by decide))
  refine ⟨hdead, ?_, by decide⟩
  have hdead2 : isSubstr ['g', '/', 'l'] (normalize q) = false := hdead
  simp [List.any_cons, hdead2]

/-- Claim C2: the entity-hint adjustment uses only the first group, in the
fixed order agency, donors, vendors, items, ledger, whose trigger occurs in
the normalized query (the explicit if-chain below); if that group's tag
equals the row's normalized entity tag the score gains +4 and the
explanation records entity_bonus = 4, if it differs the score loses 1 and
the entity_bonus entry stays 0, and with no match the score is just the
base (phrase + token) score. -/
theorem claim2_entity_hint (q_norm : Str) (q_tokens : List Str) (row : Row) :
    (firstHintGroup q_norm =
      (if ["agency".toList, "agencies".toList].any
          (fun w => isSubstr w q_norm) then some "agency".toList
       else if ["donor".toList, "donors".toList].any
          (fun w => isSubstr w q_norm) then some "donors".toList
       else if ["vendor".toList, "vendors".toList, "supplier".toList,
          "suppliers".toList].any (fun w => isSubstr w q_norm) then
            some "vendors".toList
       else if ["item".toList, "items".toList, "product".toList,
          "sku".toList].any (fun w => isSubstr w q_norm) then some "items".toList
       else if ["gl".toList, "g/l".toList, "ledger".toList,
          "general ledger".toList, "journal".toList].any
          (fun w => isSubstr w q_norm) then some "ledger".toList
       else none)) ∧
    (firstHintGroup q_norm = none →
      (score_row q_norm q_tokens row).1 = baseScore q_norm q_tokens row ∧
      lookupWhy "entity_bonus".toList (score_row q_norm q_tokens row).2 = 0) ∧
    (∀ g, firstHintGroup q_norm = some g →
      (g = normalize row.entity →
        (score_row q_norm q_tokens row).1 = baseScore q_norm q_tokens row + 4 ∧
        lookupWhy "entity_bonus".toList (score_row q_norm q_tokens row).2 = 4) ∧
      (g ≠ normalize row.entity →
        (score_row q_norm q_tokens row).1 = baseScore q_norm q_tokens row - 1 ∧
        lookupWhy "entity_bonus".toList (score_row q_norm q_tokens row).2 = 0)) := by
  refine ⟨?_, ?_, ?_⟩
  · unfold firstHintGroup ENTITY_HINTS
    by_cases h1 : (["agency".toList, "agencies".toList].any
        fun w => isSubstr w q_norm) = true
    · rw [find_hint_cons_pos h1, if_pos h1]
      rfl
    · rw [find_hint_cons_neg h1, if_neg h1]
      by_cases h2 : (["donor".toList, "donors".toList].any
          fun w => isSubstr w q_norm) = true
      · rw [find_hint_cons_pos h2, if_pos h2]
        rfl
      · rw [find_hint_cons_neg h2, if_neg h2]
        by_cases h3 : (["vendor".toList, "vendors".toList, "supplier".toList,
            "suppliers".toList].any fun w => isSubstr w q_norm) = true
        · rw [find_hint_cons_pos h3, if_pos h3]
          rfl
        · rw [find_hint_cons_neg h3, if_neg h3]
          by_cases h4 : (["item".toList, "items".toList, "product".toList,
              "sku".toList].any fun w => isSubstr w q_norm) = true
          · rw [find_hint_cons_pos h4, if_pos h4]
            rfl
          · rw [find_hint_cons_neg h4, if_neg h4]
            by_cases h5 : (["gl".toList, "g/l".toList, "ledger".toList,
                "general ledger".toList, "journal".toList].any
                fun w => isSubstr w q_norm) = true
            · rw [find_hint_cons_pos h5, if_pos h5]
              rfl
            · rw [find_hint_cons_neg h5, if_neg h5]
              rfl
  · intro hnone
    have hf : ENTITY_HINTS.find?
        (fun p => p.2.any (fun w => isSubstr w q_norm)) = none := by
      unfold firstHintGroup at hnone
      exact Option.map_eq_none'.mp hnone
    rw [score_row_of_find_none _ _ _ hf]
    exact ⟨rfl, rfl⟩
  · intro g hg
    have hf : ∃ ws, ENTITY_HINTS.find?
        (fun p => p.2.any (fun w => isSubstr w q_norm)) = some (g, ws) := by
      unfold firstHintGroup at hg
      rcases Option.map_eq_some'.mp hg with ⟨⟨t, ws⟩, hp, he⟩
      dsimp at he
      subst he
      exact ⟨ws, hp⟩
    rcases hf with ⟨ws, hf⟩
    constructor
    · intro hge
      rw [score_row_of_find_some _ _ _ _ hf, if_pos hge]
      exact ⟨rfl, rfl⟩
    · intro hgne
      rw [score_row_of_find_some _ _ _ _ hf, if_neg hgne]
      exact ⟨rfl, rfl⟩

/-- Witness for claim C2: a query containing agency gives the agency-tagged
row a +4 bonus, recorded in the explanation. -/
theorem claim2_witness :
    firstHintGroup (normalize "agency code".toList) = some "agency".toList ∧
    ((score_row (normalize "agency code".toList)
        (tokenize "agency code".toList) rowAgency).1 =
      baseScore (normalize "agency code".toList)
        (tokenize "agency code".toList) rowAgency + 4 ∧
     lookupWhy "entity_bonus".toList
       (score_row (normalize "agency code".toList)
         (tokenize "agency code".toList) rowAgency).2 = 4) :=
  ⟨by decide,
   ((claim2_entity_hint (normalize "agency code".toList)
      (tokenize "agency code".toList) rowAgency).2.2 "agency".toList
      (by decide)).1 (by decide)⟩

/-- Claim C3: the synonym-phrase component of score_row is the maximum of
8 + len(p) / 10 over the phrases p of phrase_list(synonyms) that are
non-empty substrings of the normalized query, 0 when none matches; on the
query Where can I find agency delivery zone codes? and a row whose synonyms
contain delivery zone, the component is exactly 9. -/
theorem claim3_phrase_component (q_norm syns : Str) :
    (∀ p ∈ phrase_list syns, (!p.isEmpty && isSubstr p q_norm) = true →
        8 + p.length / 10 ≤ bestPhrase q_norm syns) ∧
    ((∀ p ∈ phrase_list syns, (!p.isEmpty && isSubstr p q_norm) = false) →
        bestPhrase q_norm syns = 0) ∧
    (bestPhrase q_norm syns = 0 ∨
      ∃ p ∈ phrase_list syns, (!p.isEmpty && isSubstr p q_norm) = true ∧
        bestPhrase q_norm syns = 8 + p.length / 10) ∧
    bestPhrase (normalize "Where can I find agency delivery zone codes?".toList)
      "delivery zone, zone code".toList = 9 ∧
    lookupWhy "syn_phrase_hit".toList
      (score_row (normalize "Where can I find agency delivery zone codes?".toList)
        (tokenize "Where can I find agency delivery zone codes?".toList)
        rowAgency).2 = 9 := by
  refine ⟨?_, ?_, ?_, by decide, by decide⟩
  · intro p hp hc
    exact bestPhrase_fold_ge q_norm _ 0 p hp hc
  · intro hall
    exact bestPhrase_fold_zero q_norm _ hall
  · exact bestPhrase_fold_cases q_norm _ 0

/-- Witness for claim C3: the upper-bound conjunct applied to the concrete
matching phrase delivery zone. -/
theorem claim3_witness :
    8 + ("delivery zone".toList).length / 10 ≤
      bestPhrase (normalize "Where can I find agency delivery zone codes?".toList)
        "delivery zone, zone code".toList :=
  (claim3_phrase_component
      (normalize "Where can I find agency delivery zone codes?".toList)
      "delivery zone, zone code".toList).1 "delivery zone".toList
    (by decide) (by decide)

/-- Claim C4: the ranking sorts the scored rows descending by score; ties
keep their dataset order (the rows of any given score appear in exactly the
order the dataset supplies them); and re-ranking any permutation of the
dataset yields a permutation of the same scored triples (same multiset of
(row, score) pairs, ties following the permuted input order). -/
theorem claim4_stable_sort (q : Str) (ds ds' : List Row) (h : ds'.Perm ds) :
    List.Pairwise rDesc (rankAll q ds) ∧
    (∀ s : Int, (rankAll q ds).filter (fun x => decide (x.1 = s)) =
      (scoredList q ds).filter (fun x => decide (x.1 = s))) ∧
    (rankAll q ds').Perm (rankAll q ds) := by
  refine ⟨?_, ?_, ?_⟩
  · exact List.sorted_insertionSort rDesc _
  · intro s
    unfold rankAll
    exact filter_insertionSort s _
  · have h1 : (rankAll q ds').Perm (scoredList q ds') :=
      List.perm_insertionSort rDesc _
    have h2 : (scoredList q ds').Perm (scoredList q ds) := h.map (scoreEntry q)
    have h3 : (rankAll q ds).Perm (scoredList q ds) :=
      List.perm_insertionSort rDesc _
    exact (h1.trans h2).trans h3.symm

/-- Witness for claim C4: re-ranking the swapped two-row dataset yields a
permutation of the original ranking. -/
theorem claim4_witness :
    ([rowDonor, rowAgency].Perm [rowAgency, rowDonor]) ∧
    (rankAll "agency".toList [rowDonor, rowAgency]).Perm
      (rankAll "agency".toList [rowAgency, rowDonor]) :=
  ⟨List.Perm.swap rowAgency rowDonor [],
   (claim4_stable_sort "agency".toList [rowAgency, rowDonor]
      [rowDonor, rowAgency] (List.Perm.swap rowAgency rowDonor [])).2.2⟩

/-- Claim C8: tokenize(s) is the set of whitespace-split words of
normalize(s) of length at least 3 outside the stopword set; tokenize of the
empty string is empty; and no stopword ever appears in the tokenization of
itself. -/
theorem claim8_tokenize (s : Str) (w : Str) :
    (w ∈ tokenize s ↔
      (w ∈ splitWs (normalize s) ∧ 3 ≤ w.length ∧ w ∉ STOPWORDS)) ∧
    tokenize [] = [] ∧
    (∀ v ∈ STOPWORDS, v ∉ tokenize v) := by
  refine ⟨?_, rfl, by decide⟩
  unfold tokenize
  rw [List.mem_dedup, List.mem_filter]
  simp only [Bool.and_eq_true, decide_eq_true_eq, Bool.not_eq_true',
    decide_eq_false_iff_not]

/-- Witness for claim C8: its empty-input conjunct. -/
theorem claim8_witness : tokenize ([] : Str) = [] :=
  (claim8_tokenize [] []).2.1

/-- Claim C10: the explanation returned by score_row always holds exactly
the keys syn_phrase_hit, token_overlap, entity_bonus with non-negative
values, and the score is their sum minus 1 exactly when an entity-hint
group matched the query with a tag different from the row's entity (the sum
otherwise); hence every score is at least -1. -/
theorem claim10_score_decomposition (q_norm : Str) (q_tokens : List Str)
    (row : Row) :
    ∃ bp tp eb : Int,
      0 ≤ bp ∧ 0 ≤ tp ∧ 0 ≤ eb ∧
      (score_row q_norm q_tokens row).2 =
        [("syn_phrase_hit".toList, bp), ("token_overlap".toList, tp),
         ("entity_bonus".toList, eb)] ∧
      (score_row q_norm q_tokens row).1 =
        bp + tp + eb - (if entMismatch q_norm row = true then 1 else 0) ∧
      -1 ≤ (score_row q_norm q_tokens row).1 := by
  cases hf : ENTITY_HINTS.find? (fun p => p.2.any (fun w => isSubstr w q_norm)) with
  | none =>
    refine ⟨(bestPhrase q_norm row.synonyms : Int),
      (tokPts q_tokens (normalize row.common) (normalize row.keyword)
        (normalize row.report) : Int), 0,
      Int.natCast_nonneg _, Int.natCast_nonneg _, le_refl 0, ?_, ?_, ?_⟩
    · rw [score_row_of_find_none _ _ _ hf]
      exact whyBase_eq q_norm q_tokens row
    · rw [score_row_of_find_none _ _ _ hf]
      have hm : entMismatch q_norm row = false := by
        unfold entMismatch firstHintGroup
        rw [hf]
        rfl
      rw [hm]
      unfold baseScore
      simp
    · rw [score_row_of_find_none _ _ _ hf]
      unfold baseScore
      omega
  | some pr =>
    by_cases hpe : pr.1 = normalize row.entity
    · refine ⟨(bestPhrase q_norm row.synonyms : Int),
        (tokPts q_tokens (normalize row.common) (normalize row.keyword)
          (normalize row.report) : Int), 4,
        Int.natCast_nonneg _, Int.natCast_nonneg _, by omega, ?_, ?_, ?_⟩
      · rw [score_row_of_find_some _ _ _ _ hf, if_pos hpe]
        rw [show (setWhy "entity_bonus".toList 4 (whyBase q_norm q_tokens row)) =
          [("syn_phrase_hit".toList, (bestPhrase q_norm row.synonyms : Int)),
           ("token_overlap".toList,
            (tokPts q_tokens (normalize row.common) (normalize row.keyword)
              (normalize row.report) : Int)),
           ("entity_bonus".toList, 4)] from rfl]
      · rw [score_row_of_find_some _ _ _ _ hf, if_pos hpe]
        have hm : entMismatch q_norm row = false := by
          unfold entMismatch firstHintGroup
          rw [hf]
          simp [hpe]
        rw [hm]
        unfold baseScore
        simp
      · rw [score_row_of_find_some _ _ _ _ hf, if_pos hpe]
        unfold baseScore
        omega
    · refine ⟨(bestPhrase q_norm row.synonyms : Int),
        (tokPts q_tokens (normalize row.common) (normalize row.keyword)
          (normalize row.report) : Int), 0,
        Int.natCast_nonneg _, Int.natCast_nonneg _, le_refl 0, ?_, ?_, ?_⟩
      · rw [score_row_of_find_some _ _ _ _ hf, if_neg hpe]
        exact whyBase_eq q_norm q_tokens row
      · rw [score_row_of_find_some _ _ _ _ hf, if_neg hpe]
        have hm : entMismatch q_norm row = true := by
          unfold entMismatch firstHintGroup
          rw [hf]
          simp [hpe]
        rw [hm]
        unfold baseScore
        simp
      · rw [score_row_of_find_some _ _ _ _ hf, if_neg hpe]
        unfold baseScore
        omega

end Ceres6
